import Mathlib

/-
Verification development for the unsupervised deep-homography training script
(`main.py`).  The pure/algorithmic parts of the program are embedded shallowly:

* tensors of rational pixel values stand in for floating-point tensors
  (exact arithmetic idealizes IEEE arithmetic);
* the geometry library calls (`kornia.get_perspective_transform`,
  `kornia.warp_perspective`) are modelled from the specification of the
  Geometry/Loss Engine, since that library is not part of the repository:
  a 4-point DLT linear solve and an inverse-mapping bilinear warp;
* the linear solve (`torch.gesv`, an LU solve that fails on singular
  systems and otherwise - in exact arithmetic - returns the exact unique
  solution) is embedded as Gauss-Jordan inversion whose result is checked
  against the definition of a two-sided inverse, making both the success
  condition (invertibility) and the exactness of the solution explicit;
* the stateful training loop is embedded as a small step machine over the
  mutable state the loop touches (parameters, gradient buffers, metric
  emissions), with one operation per relevant source line.
-/

/-! ## Point arithmetic (main.py line 68: `points_hat = points + delta`) -/

/-- Four 2-D corner points (one sample's `points` tensor of shape (4,2)). -/
abbrev Pts4 : Type := Fin 4 → ℚ × ℚ

/-- Element-wise `points + delta` (main.py line 68). -/
def ptsAdd (points delta : Pts4) : Pts4 :=
  fun i => ((points i).1 + (delta i).1, (points i).2 + (delta i).2)

/-- The zero displacement (identity homography request). -/
def zeroDelta : Pts4 := fun _ => (0, 0)

/-! ## Gauss-Jordan elimination over ℚ

Modelled from the spec: the Geometry/Loss Engine's "stable linear-system
solver" (`torch.gesv` inside `kornia.get_perspective_transform`), which
fails on a singular system and otherwise returns the solution of `A x = b`;
in exact rational arithmetic that solution is exact.  The elimination result
is verified against the two-sided-inverse property, so success of the
embedded solver implies invertibility by construction. -/

/-- Find a row whose entry in column `c` is nonzero; return it and the rest. -/
def findPivot (c : ℕ) : List (List ℚ) → Option (List ℚ × List (List ℚ))
  | [] => none
  | r :: rs =>
    if r.getD c 0 ≠ 0 then some (r, rs)
    else (findPivot c rs).map (fun pr => (pr.1, r :: pr.2))

/-- Scale a row so that its entry in column `c` becomes 1. -/
def scaleRow (c : ℕ) (r : List ℚ) : List ℚ :=
  let a := r.getD c 0
  r.map (fun x => x / a)

/-- Subtract the right multiple of pivot row `p` from `r`, clearing column `c`. -/
def elimRow (p : List ℚ) (c : ℕ) (r : List ℚ) : List ℚ :=
  let f := r.getD c 0
  List.zipWith (fun x y => x - f * y) r p

/-- One Gauss-Jordan pass: process the listed columns in order, moving a
scaled pivot row per column from `todo` to `done` and clearing the column
everywhere else.  Fails if some column has no pivot (singular system). -/
def gjLoop : List ℕ → List (List ℚ) → List (List ℚ) → Option (List (List ℚ))
  | [], done, _ => some done
  | c :: cs, done, todo =>
    match findPivot c todo with
    | none => none
    | some pr =>
      let p := scaleRow c pr.1
      gjLoop cs (done.map (elimRow p c) ++ [p]) (pr.2.map (elimRow p c))

/-- Invert an `n × n` matrix given as augmented rows `[A | I]`;
returns the rows of the right half `[I | A⁻¹]` on success. -/
def gaussInvRows (n : ℕ) (aug : List (List ℚ)) : Option (List (List ℚ)) :=
  (gjLoop (List.range n) [] aug).map (List.map (List.drop n))

/-- Augmented rows `[A | I]` of an 8×8 matrix. -/
def aug8 (A : Matrix (Fin 8) (Fin 8) ℚ) : List (List ℚ) :=
  (List.finRange 8).map fun i =>
    (List.finRange 8).map (A i) ++ (List.finRange 8).map (fun j => if i = j then (1 : ℚ) else 0)

/-- Read a matrix back from a list of rows. -/
def rowsToMat8 (rows : List (List ℚ)) : Matrix (Fin 8) (Fin 8) ℚ :=
  Matrix.of fun i j => (rows.getD i.val []).getD j.val 0

/-- Inverse of an 8×8 rational matrix by verified Gauss-Jordan elimination:
the computed candidate is checked to be a two-sided inverse, so
`matInv8 A = some B` implies `A * B = 1 ∧ B * A = 1` by construction, and
the solver fails exactly when elimination cannot produce a verified inverse
(in particular on every singular matrix). -/
def matInv8 (A : Matrix (Fin 8) (Fin 8) ℚ) : Option (Matrix (Fin 8) (Fin 8) ℚ) :=
  match gaussInvRows 8 (aug8 A) with
  | none => none
  | some rows =>
    let B := rowsToMat8 rows
    if A * B = 1 ∧ B * A = 1 then some B else none

/-- Solve `A x = b` (the embedded `torch.gesv`): fails iff no verified
inverse is produced; otherwise returns the exact unique solution. -/
def solveLin8 (A : Matrix (Fin 8) (Fin 8) ℚ) (b : Fin 8 → ℚ) : Option (Fin 8 → ℚ) :=
  (matInv8 A).map (fun B => B.mulVec b)

/-! ## 4-point perspective transform (main.py line 69)

Modelled from the spec: "Solve for the unique projective transform mapping
the 4 source points to the 4 destination points (a homogeneous linear
system; fails ... if the 4 points are collinear or coincident)".  This is
the standard DLT system used by `kornia.get_perspective_transform`: with
`H = [[h0,h1,h2],[h3,h4,h5],[h6,h7,1]]`, each correspondence
`(x,y) ↦ (u,v)` contributes the two linear rows below. -/

/-- DLT row for the `u`-coordinate of correspondence `p ↦ q`. -/
def dltRowX (p q : ℚ × ℚ) : Fin 8 → ℚ :=
  ![p.1, p.2, 1, 0, 0, 0, -p.1 * q.1, -p.2 * q.1]

/-- DLT row for the `v`-coordinate of correspondence `p ↦ q`. -/
def dltRowY (p q : ℚ × ℚ) : Fin 8 → ℚ :=
  ![0, 0, 0, p.1, p.2, 1, -p.1 * q.2, -p.2 * q.2]

/-- The 8×8 DLT system matrix of the four correspondences `src i ↦ dst i`. -/
def dltMatrix (src dst : Pts4) : Matrix (Fin 8) (Fin 8) ℚ :=
  Matrix.of
    ![dltRowX (src 0) (dst 0), dltRowY (src 0) (dst 0),
      dltRowX (src 1) (dst 1), dltRowY (src 1) (dst 1),
      dltRowX (src 2) (dst 2), dltRowY (src 2) (dst 2),
      dltRowX (src 3) (dst 3), dltRowY (src 3) (dst 3)]

/-- The DLT right-hand side: the destination coordinates. -/
def dltVec (dst : Pts4) : Fin 8 → ℚ :=
  ![(dst 0).1, (dst 0).2, (dst 1).1, (dst 1).2,
    (dst 2).1, (dst 2).2, (dst 3).1, (dst 3).2]

/-- Assemble the 3×3 homography from the 8 solved parameters (`h22 = 1`). -/
def hmatOf (x : Fin 8 → ℚ) : Matrix (Fin 3) (Fin 3) ℚ :=
  Matrix.of ![![x 0, x 1, x 2], ![x 3, x 4, x 5], ![x 6, x 7, 1]]

/-- The solution vector of the DLT system for an identity correspondence. -/
def idVec8 : Fin 8 → ℚ := ![1, 0, 0, 0, 1, 0, 0, 0]

/-- `kornia.get_perspective_transform(points, points_hat)` (main.py line 69),
modelled from the spec as the DLT solve above. -/
def getPerspectiveTransform (src dst : Pts4) : Option (Matrix (Fin 3) (Fin 3) ℚ) :=
  (solveLin8 (dltMatrix src dst) (dltVec dst)).map hmatOf

/-- Homogeneous denominator of a projective transform at a point. -/
def denom3 (H : Matrix (Fin 3) (Fin 3) ℚ) (p : ℚ × ℚ) : ℚ :=
  H 2 0 * p.1 + H 2 1 * p.2 + H 2 2

/-- Apply a 3×3 projective transform to a 2-D point (division by the
homogeneous coordinate; division by zero yields junk, as rational division
by zero is 0 — mirroring the NaN/Inf junk of the float implementation). -/
def transformPoint (H : Matrix (Fin 3) (Fin 3) ℚ) (p : ℚ × ℚ) : ℚ × ℚ :=
  let w := denom3 H p
  ((H 0 0 * p.1 + H 0 1 * p.2 + H 0 2) / w,
   (H 1 0 * p.1 + H 1 1 * p.2 + H 1 2) / w)

/-- Determinant of a 3×3 matrix, explicit cofactor form. -/
def det3 (M : Matrix (Fin 3) (Fin 3) ℚ) : ℚ :=
  M 0 0 * (M 1 1 * M 2 2 - M 1 2 * M 2 1)
  - M 0 1 * (M 1 0 * M 2 2 - M 1 2 * M 2 0)
  + M 0 2 * (M 1 0 * M 2 1 - M 1 1 * M 2 0)

/-- Explicit adjugate/determinant inverse of a 3×3 rational matrix. -/
def inv3 (M : Matrix (Fin 3) (Fin 3) ℚ) : Matrix (Fin 3) (Fin 3) ℚ :=
  let d := det3 M
  Matrix.of
    ![![(M 1 1 * M 2 2 - M 1 2 * M 2 1) / d,
        (M 0 2 * M 2 1 - M 0 1 * M 2 2) / d,
        (M 0 1 * M 1 2 - M 0 2 * M 1 1) / d],
      ![(M 1 2 * M 2 0 - M 1 0 * M 2 2) / d,
        (M 0 0 * M 2 2 - M 0 2 * M 2 0) / d,
        (M 0 2 * M 1 0 - M 0 0 * M 1 2) / d],
      ![(M 1 0 * M 2 1 - M 1 1 * M 2 0) / d,
        (M 0 1 * M 2 0 - M 0 0 * M 2 1) / d,
        (M 0 0 * M 1 1 - M 0 1 * M 1 0) / d]]

/-! ## Images, bilinear warp and the photometric loss (main.py lines 67-71) -/

/-- A single-channel rational-valued image (the dataset is grayscale);
`pix r c` is the pixel at row `r`, column `c`, meaningful for
`r < h`, `c < w`. -/
structure QImage where
  h : ℕ
  w : ℕ
  pix : ℕ → ℕ → ℚ

/-- Pixel access with zero padding outside the image bounds. -/
def pixAt (img : QImage) (r c : ℤ) : ℚ :=
  if 0 ≤ r ∧ r < (img.h : ℤ) ∧ 0 ≤ c ∧ c < (img.w : ℤ) then
    img.pix r.toNat c.toNat
  else 0

/-- Bilinear interpolation of `img` at continuous coordinates
(`x` = column, `y` = row), zero padded.  Modelled from the spec:
"bilinear interpolation with gradient flow", the warp's sampling step. -/
def sampleBilinear (img : QImage) (x y : ℚ) : ℚ :=
  let x0 : ℤ := ⌊x⌋
  let y0 : ℤ := ⌊y⌋
  let fx : ℚ := x - x0
  let fy : ℚ := y - y0
  (1 - fy) * ((1 - fx) * pixAt img y0 x0 + fx * pixAt img y0 (x0 + 1))
  + fy * ((1 - fx) * pixAt img (y0 + 1) x0 + fx * pixAt img (y0 + 1) (x0 + 1))

/-- `kornia.warp_perspective(img, M, (oh, ow))` (main.py line 70), modelled
from the spec: inverse-mapping warp — output pixel `(r, c)` samples the
source image bilinearly at `M⁻¹ (c, r)`; fails (as the float code does) when
`M` is singular. -/
def warpPerspective (img : QImage) (M : Matrix (Fin 3) (Fin 3) ℚ) (oh ow : ℕ) : Option QImage :=
  if det3 M = 0 then none
  else
    some { h := oh, w := ow,
           pix := fun r c =>
             let p := transformPoint (inv3 M) ((c : ℚ), (r : ℚ))
             sampleBilinear img p.1 p.2 }

/-- `torch.mean(torch.abs(a - b))` over an `oh × ow` single-channel grid. -/
def imgMeanAbsDiff (a b : QImage) (oh ow : ℕ) : ℚ :=
  ((Finset.range oh).sum fun r => (Finset.range ow).sum fun c => |a.pix r c - b.pix r c|)
  / (oh * ow)

/-- `photometric_loss(delta, img_a, img_b, points)` (main.py lines 67-71):
destination points are `points + delta`; the perspective transform from the
4 correspondences warps `img_a` to the fixed size (256, 256); the result is
the mean absolute pixel difference against `img_b`.  Failure (`none`)
mirrors the run-aborting exceptions of the float code: singular DLT system,
singular homography, or an `img_b` whose shape cannot match the warped
256×256 image. -/
def photometricLoss (delta : Pts4) (imgA imgB : QImage) (points : Pts4) : Option ℚ :=
  match getPerspectiveTransform points (ptsAdd points delta) with
  | none => none
  | some hM =>
    match warpPerspective imgA hM 256 256 with
    | none => none
    | some imgBHat =>
      if imgB.h = 256 ∧ imgB.w = 256 then
        some (imgMeanAbsDiff imgBHat imgB 256 256)
      else none

/-- Modelled from the spec: the Geometry/Loss Engine contract of §4.2,
steps 1-4 as written — destination points = source points + displacement;
solve the projective transform; warp the *first* image to a target size
matching the *second image's resolution*; return the mean absolute
pixel-wise difference.  Used only to compare against `photometricLoss`,
which is translated from the source. -/
def photometricLossSpec (delta : Pts4) (imgA imgB : QImage) (points : Pts4) : Option ℚ :=
  match getPerspectiveTransform points (ptsAdd points delta) with
  | none => none
  | some hM =>
    match warpPerspective imgA hM imgB.h imgB.w with
    | none => none
    | some imgBHat => some (imgMeanAbsDiff imgBHat imgB imgB.h imgB.w)

/-! ## Training-loop step machine (main.py lines 74-112)

The per-batch body of `train_step` / `valid_step` is embedded as a list of
operations over the mutable state the loop touches: the model parameters,
the autograd gradient buffers, and the metric emissions of the
`SummaryWriter`.  Parameters and gradients have abstract types `P` and `G`;
`g` is the gradient of the batch loss at the current parameters,
`gadd` the gradient accumulation of `backward()`, `upd` the optimizer's
parameter update (Adam, abstract), `gzero` the zero gradient. -/

/-- A metric emission: tag and the `global_step` argument passed by the
code.  `main.py` line 91 calls `writer.add_scalar("train_loss", loss.item())`
with no step argument, so the step field of each emission is `none`. -/
structure ScalarEmission where
  tag : String
  step : Option ℕ
deriving DecidableEq

/-- The tag used at main.py line 91. -/
def trainLossTag : String := "train_loss"

/-- Mutable state threaded through the batch loop. -/
structure LoopState (P G : Type) where
  params : P
  grads : G
  events : List ScalarEmission

/-- The state-relevant operations a batch body can perform. -/
inductive TorchOp where
  | forwardOp
  | backwardOp
  | optStepOp
  | zeroGradOp
  | addScalarOp (tag : String)
deriving DecidableEq

/-- Effect of one operation on the loop state for batch index `k`:
`forward` reads but does not write; `backward` accumulates the batch
gradient into the buffer; `optimizer.step()` updates the parameters from
the buffer; `zero_grad` clears the buffer; `add_scalar` appends an
emission carrying the step argument the code passes (none). -/
def runOp {P G : Type} (g : P → ℕ → G) (gadd : G → G → G) (gzero : G)
    (upd : P → G → P) (k : ℕ) (s : LoopState P G) : TorchOp → LoopState P G
  | .forwardOp => s
  | .backwardOp => { s with grads := gadd s.grads (g s.params k) }
  | .optStepOp => { s with params := upd s.params s.grads }
  | .zeroGradOp => { s with grads := gzero }
  | .addScalarOp tag => { s with events := s.events ++ [{ tag := tag, step := none }] }

/-- Run a batch body (a list of operations) for batch index `k`. -/
def runOps {P G : Type} (g : P → ℕ → G) (gadd : G → G → G) (gzero : G)
    (upd : P → G → P) (k : ℕ) (s : LoopState P G) (ops : List TorchOp) : LoopState P G :=
  ops.foldl (fun t op => runOp g gadd gzero upd k t op) s

/-- Per-batch body of `train_step` (main.py lines 86-92): forward pass,
`loss.backward()`, `optimizer.step()`, `writer.add_scalar(...)`.
There is no `zeroGradOp`: the source never calls `optimizer.zero_grad()`. -/
def trainBody : List TorchOp :=
  [.forwardOp, .backwardOp, .optStepOp, .addScalarOp trainLossTag]

/-- Per-batch body of `valid_step` (main.py lines 109-111): forward pass and
loss computation only — no backward, no optimizer step, no emission. -/
def validBody : List TorchOp :=
  [.forwardOp]

/-- State after the first `n` batches of a loop with the given body. -/
def runBatches {P G : Type} (body : List TorchOp) (g : P → ℕ → G) (gadd : G → G → G)
    (gzero : G) (upd : P → G → P) : ℕ → LoopState P G → LoopState P G
  | 0, s => s
  | n + 1, s => runOps g gadd gzero upd n (runBatches body g gadd gzero upd n s) body

/-- The gradient buffer at the moment `loss.backward()` runs for batch `k`:
the ops of the `train_step` body executed before `backward` are exactly
`[forwardOp]`, applied to the state left by the previous `k` batches. -/
def gradsBeforeBackward {P G : Type} (g : P → ℕ → G) (gadd : G → G → G) (gzero : G)
    (upd : P → G → P) (s0 : LoopState P G) (k : ℕ) : G :=
  (runOps g gadd gzero upd k (runBatches trainBody g gadd gzero upd k s0) [.forwardOp]).grads

/-- Step keys of the emissions produced by `n` training batches from the
fresh writer state, in the concrete scalar instantiation. -/
def emittedSteps (n : ℕ) : List (Option ℕ) :=
  ((runBatches trainBody (fun (_ : ℚ) (_ : ℕ) => (0 : ℚ)) (· + ·) 0 (fun p _ => p) n
      { params := 0, grads := 0, events := [] }).events).map ScalarEmission.step

/-- Strict order on step keys: only two present keys compare. -/
def stepKeyLt : Option ℕ → Option ℕ → Bool
  | some a, some b => a < b
  | _, _ => false

/-! ## Loss accumulation and the epoch mean (main.py lines 76-77, 88, 93, 99-100, 111-112) -/

/-- The mini-batches a `DataLoader` with batch size `B` forms from the
per-sample losses of the epoch's dataset: consecutive chunks of size `B`,
the last one possibly smaller (`drop_last` is left False in main.py). -/
def batchChunks (B : ℕ) (l : List ℚ) : List (List ℚ) :=
  if h : l = [] ∨ B = 0 then []
  else l.take B :: batchChunks B (l.drop B)
termination_by l.length
decreasing_by
  simp only [List.length_drop]
  rcases Nat.eq_zero_or_pos B with hB | hB
  · exact absurd (Or.inr hB) h
  · have hne : l ≠ [] := fun he => h (Or.inl he)
    have hpos : 0 < l.length := List.length_pos.mpr hne
    omega

/-- The scalar a batch's `photometric_loss(...).item()` evaluates to: the
mean of the per-sample losses of the batch (`torch.mean` averages over the
batch dimension together with the pixel dimensions). -/
def batchLoss (b : List ℚ) : ℚ := b.sum / b.length

/-- The value `train_step`/`valid_step` returns, as a function of the
per-sample losses of the epoch: `total_loss` starts at `0.0`, each batch
adds `loss.item() * batch_size`, and the total is divided by
`len(dataloader.dataset)` at the end.  Division by a zero dataset length
raises in Python, embedded as `none`. -/
def stepMean (B : ℕ) (samples : List ℚ) : Option ℚ :=
  let total := (batchChunks B samples).foldl (fun acc b => acc + batchLoss b * b.length) 0
  if samples.length = 0 then none else some (total / samples.length)

/-! ## Dataset split in `fit` (main.py lines 117-120) -/

/-- `train_size = int(0.8 * len(dataset))` (main.py line 117); `0.8 * N`
idealized as exact arithmetic, so the floor is `4N/5` (the float product
rounds to the correct side for every realistic dataset size). -/
def trainSplitSize (n : ℕ) : ℕ := 4 * n / 5

/-- The complementary validation partition size `len(dataset) - train_size`
(main.py line 119). -/
def validSplitSize (n : ℕ) : ℕ := n - trainSplitSize n

/-! ## Epoch driver trace (main.py lines 130-134) -/

/-- Observable actions of one `fit` epoch iteration. -/
inductive FitEvent where
  | trainPass (e : ℕ)
  | validPass (e : ℕ)
  | printLine (e : ℕ) (line : String)
  | saveCkpt (e : ℕ) (file : String)
deriving DecidableEq

/-- Round half to even (the tie behavior of Python's fixed-point float
formatting, idealized over ℚ). -/
def roundHalfEven (q : ℚ) : ℤ :=
  let f := ⌊q⌋
  let r := q - f
  if r < 1 / 2 then f
  else if 1 / 2 < r then f + 1
  else if f % 2 = 0 then f else f + 1

/-- Left-pad a numeral string to 4 digits. -/
def pad4 (k : ℕ) : String :=
  let s := toString k
  String.mk (List.replicate (4 - s.length) '0') ++ s

/-- Python's `f"{q:.4f}"` over ℚ: fixed-point with exactly 4 fractional
digits. -/
def fmt4 (q : ℚ) : String :=
  let n := roundHalfEven (q * 10000)
  let sign := if n < 0 then "-" else ""
  let m := n.natAbs
  sign ++ toString (m / 10000) ++ "." ++ pad4 (m % 10000)

/-- The line printed at main.py line 133:
`f"{e}\t{train_loss:.4f}\t{valid_loss:.4f}"`. -/
def epochLine (e : ℕ) (tl vl : ℚ) : String :=
  toString e ++ "\t" ++ fmt4 tl ++ "\t" ++ fmt4 vl

/-- The checkpoint filename at main.py line 134: `f"model_{e}.pt"`. -/
def ckptName (e : ℕ) : String :=
  "model_" ++ toString e ++ ".pt"

/-- The four observable actions of epoch `e`, in source order
(main.py lines 131-134): train pass, valid pass, print, checkpoint save.
`tl e` / `vl e` are the mean losses the two passes return at epoch `e`. -/
def epochBlock (tl vl : ℕ → ℚ) (e : ℕ) : List FitEvent :=
  [.trainPass e, .validPass e,
   .printLine e (epochLine e (tl e) (vl e)),
   .saveCkpt e (ckptName e)]

/-- The trace of `for e in range(epochs)` (main.py line 130). -/
def fitTrace (tl vl : ℕ → ℚ) : ℕ → List FitEvent
  | 0 => []
  | n + 1 => fitTrace tl vl n ++ epochBlock tl vl n

/-- Is this event the checkpoint save of epoch `e`? -/
def isSaveOf (e : ℕ) : FitEvent → Bool
  | .saveCkpt e' _ => e' = e
  | _ => false

/-- Is this event the printed line of epoch `e`? -/
def isPrintOf (e : ℕ) : FitEvent → Bool
  | .printLine e' _ => e' = e
  | _ => false

/-! ## Predictor network shape semantics (main.py lines 20-64)

The `Net` forward pass is embedded at the shape level: each layer either
maps an input shape to its output shape or fails (`none`) where the torch
call would raise.  A shape is `(channels, height, width)` for feature maps
and plain `ℕ` for flattened features. -/

/-- `nn.Conv2d(cin, cout, kernel_size=3, padding=1)`: requires the channel
count to match and at least one spatial row/column; preserves the spatial
size. -/
def convShape (cin cout : ℕ) (s : ℕ × ℕ × ℕ) : Option (ℕ × ℕ × ℕ) :=
  if s.1 = cin ∧ 1 ≤ s.2.1 ∧ 1 ≤ s.2.2 then some (cout, s.2.1, s.2.2) else none

/-- `nn.MaxPool2d(2, 2)`: requires each spatial dimension ≥ 2 (torch raises
when an output dimension would be 0) and halves (floor) both. -/
def poolShape (s : ℕ × ℕ × ℕ) : Option (ℕ × ℕ × ℕ) :=
  if 2 ≤ s.2.1 ∧ 2 ≤ s.2.2 then some (s.1, s.2.1 / 2, s.2.2 / 2) else none

/-- `Block(inchannels, outchannels)` (main.py lines 25-41): conv-relu-bn,
conv-relu-bn, maxpool; ReLU and BatchNorm preserve the shape. -/
def blockShape (cin cout : ℕ) (s : ℕ × ℕ × ℕ) : Option (ℕ × ℕ × ℕ) :=
  (convShape cin cout s).bind (convShape cout cout) |>.bind poolShape

/-- The five-block CNN of `Net` (main.py lines 47-54). -/
def cnnShape (s : ℕ × ℕ × ℕ) : Option (ℕ × ℕ × ℕ) :=
  (blockShape 2 64 s).bind (blockShape 64 128) |>.bind (blockShape 128 256)
    |>.bind (blockShape 256 256) |>.bind (blockShape 256 256)

/-- `Flatten` (main.py lines 20-22): per-sample feature count. -/
def flattenShape (s : ℕ × ℕ × ℕ) : ℕ := s.1 * s.2.1 * s.2.2

/-- `nn.Linear(fin, fout)`: requires the feature count to match. -/
def linearShape (fin fout l : ℕ) : Option ℕ :=
  if l = fin then some fout else none

/-- The fully connected head (main.py lines 55-57):
`Linear(256*4*4, 4096)`, ReLU, `Linear(4096, 4*2)`. -/
def fcShape (l : ℕ) : Option ℕ :=
  (linearShape (256 * 4 * 4) 4096 l).bind (linearShape 4096 (4 * 2))

/-- `x.view(-1, 4, 2)` (main.py line 63) on a `(n, feat)` tensor: requires
the element count to split as `m * 4 * 2`. -/
def viewShape (n feat : ℕ) : Option (ℕ × ℕ × ℕ) :=
  if n * feat % 8 = 0 then some (n * feat / 8, 4, 2) else none

/-- Shape semantics of `Net.forward(a, b)` (main.py lines 59-64) on a batch
of `n` patch pairs of shapes `(ca, ha, wa)` and `(cb, hb, wb)`:
`torch.cat((a, b), dim=1)` requires equal spatial sizes and concatenates
channels; then the CNN, flatten, FC head and the final view. -/
def netForwardShape (n ca ha wa cb hb wb : ℕ) : Option (ℕ × ℕ × ℕ) :=
  if ha = hb ∧ wa = wb then
    (cnnShape (ca + cb, ha, wa)).bind fun s =>
      (fcShape (flattenShape s)).bind fun f => viewShape n f
  else none

/-! ## Concrete inputs used by counterexamples and witnesses -/

/-- A non-degenerate square of corner points (no three collinear). -/
def sqPts : Pts4 := ![(0, 0), (255, 0), (255, 255), (0, 255)]

/-- A uniform displacement by (1, 0). -/
def shiftDelta : Pts4 := fun _ => (1, 0)

/-- The translation homography by (1, 0). -/
def shiftH : Matrix (Fin 3) (Fin 3) ℚ := !![1, 0, 1; 0, 1, 0; 0, 0, 1]

/-- Source quadrilateral of the round-trip counterexample
(no three points collinear). -/
def srcX : Pts4 := ![(1, 1), (3, 0), (0, 2), (0, 0)]

/-- Displacement whose destination quadrilateral makes the DLT system
uniquely solvable while the solved homography maps `srcX 0` to the line at
infinity (the destinations are `(5,7), (-1,1/2), (-1,1), (-1,-1)`). -/
def deltaX : Pts4 := ![(4, 6), (-4, 1/2), (-1, -1), (-1, -1)]

/-- The homography the solver returns on `(srcX, ptsAdd srcX deltaX)`. -/
def hX : Matrix (Fin 3) (Fin 3) ℚ := !![1, 0, -1; 0, 1, -1; -1, 0, 1]

/-- Collinearity of three 2-D points (zero cross product). -/
def collin (p q r : ℚ × ℚ) : Prop :=
  (q.1 - p.1) * (r.2 - p.2) - (q.2 - p.2) * (r.1 - p.1) = 0

/-- No three of the four points are collinear (and in particular no two
coincide with a third on a line) — the claim's non-degeneracy hypothesis. -/
def noThreeCollinear (pts : Pts4) : Prop :=
  ∀ i j k : Fin 4, i ≠ j → i ≠ k → j ≠ k → ¬ collin (pts i) (pts j) (pts k)

instance (pts : Pts4) : Decidable (noThreeCollinear pts) := by
  unfold noThreeCollinear collin
  infer_instance

/-- The all-zero 256×256 image. -/
def imgZero : QImage := { h := 256, w := 256, pix := fun _ _ => 0 }

/-- Four coincident points: a degenerate configuration. -/
def degPts : Pts4 := fun _ => (0, 0)

/-! ## Helper lemmas: solver soundness and uniqueness -/

theorem matInv8_sound {A B : Matrix (Fin 8) (Fin 8) ℚ} (h : matInv8 A = some B) :
    A * B = 1 ∧ B * A = 1 := by
  unfold matInv8 at h
  rcases hg : gaussInvRows 8 (aug8 A) with _ | rows
  · rw [hg] at h; exact absurd h (by simp)
  · rw [hg] at h
    simp only [] at h
    split at h
    · rename_i hok
      obtain rfl := Option.some.inj h
      exact hok
    · exact absurd h (by simp)

theorem solveLin8_solves {A : Matrix (Fin 8) (Fin 8) ℚ} {b x : Fin 8 → ℚ}
    (h : solveLin8 A b = some x) : A.mulVec x = b := by
  unfold solveLin8 at h
  rcases hB : matInv8 A with _ | B
  · rw [hB] at h; exact absurd h (by simp)
  · rw [hB] at h
    simp only [Option.map_some', Option.some.injEq] at h
    obtain ⟨hAB, _⟩ := matInv8_sound hB
    subst h
    rw [Matrix.mulVec_mulVec, hAB, Matrix.one_mulVec]

theorem solveLin8_unique {A : Matrix (Fin 8) (Fin 8) ℚ} {b x y : Fin 8 → ℚ}
    (h : solveLin8 A b = some x) (hy : A.mulVec y = b) : y = x := by
  unfold solveLin8 at h
  rcases hB : matInv8 A with _ | B
  · rw [hB] at h; exact absurd h (by simp)
  · rw [hB] at h
    simp only [Option.map_some', Option.some.injEq] at h
    obtain ⟨_, hBA⟩ := matInv8_sound hB
    subst h
    calc y = (1 : Matrix (Fin 8) (Fin 8) ℚ).mulVec y := by rw [Matrix.one_mulVec]
    _ = (B * A).mulVec y := by rw [hBA]
    _ = B.mulVec (A.mulVec y) := by rw [Matrix.mulVec_mulVec]
    _ = B.mulVec b := by rw [hy]


/-! ## Vector-literal evaluation lemmas (indices 5-7, missing from Mathlib) -/

theorem consValFive8 {α : Type} (x : α) (u : Fin 7 → α) : Matrix.vecCons x u (5 : Fin 8) = u 4 := rfl

theorem consValSix8 {α : Type} (x : α) (u : Fin 7 → α) : Matrix.vecCons x u (6 : Fin 8) = u 5 := rfl

theorem consValSeven8 {α : Type} (x : α) (u : Fin 7 → α) : Matrix.vecCons x u (7 : Fin 8) = u 6 := rfl

theorem consValFive7 {α : Type} (x : α) (u : Fin 6 → α) : Matrix.vecCons x u (5 : Fin 7) = u 4 := rfl

theorem consValSix7 {α : Type} (x : α) (u : Fin 6 → α) : Matrix.vecCons x u (6 : Fin 7) = u 5 := rfl

theorem consValFive6 {α : Type} (x : α) (u : Fin 5 → α) : Matrix.vecCons x u (5 : Fin 6) = u 4 := rfl

theorem dlt_mulVec_id (src : Pts4) :
    (dltMatrix src src).mulVec idVec8 = dltVec src := by
  funext k
  fin_cases k <;>
    simp [Matrix.mulVec, Matrix.dotProduct, Fin.sum_univ_eight, dltMatrix, dltVec, dltRowX,
      dltRowY, idVec8, consValFive8, consValSix8, consValSeven8, consValFive7, consValSix7,
      consValFive6]

theorem gpt_elim {src dst : Pts4} {H : Matrix (Fin 3) (Fin 3) ℚ}
    (h : getPerspectiveTransform src dst = some H) :
    ∃ x, solveLin8 (dltMatrix src dst) (dltVec dst) = some x ∧ H = hmatOf x := by
  unfold getPerspectiveTransform at h
  rcases hs : solveLin8 (dltMatrix src dst) (dltVec dst) with _ | x
  · rw [hs] at h; exact absurd h (by simp)
  · rw [hs] at h
    simp only [Option.map_some', Option.some.injEq] at h
    exact ⟨x, rfl, h.symm⟩

theorem finMkTwo4 {h : 2 < 4} : (⟨2, h⟩ : Fin 4) = 2 := rfl

theorem finMkThree4 {h : 3 < 4} : (⟨3, h⟩ : Fin 4) = 3 := rfl

theorem gpt_rows {src dst : Pts4} {x : Fin 8 → ℚ}
    (hx : (dltMatrix src dst).mulVec x = dltVec dst) (i : Fin 4) :
    (src i).1 * x 0 + (src i).2 * x 1 + x 2
        - (src i).1 * (dst i).1 * x 6 - (src i).2 * (dst i).1 * x 7 = (dst i).1 ∧
    (src i).1 * x 3 + (src i).2 * x 4 + x 5
        - (src i).1 * (dst i).2 * x 6 - (src i).2 * (dst i).2 * x 7 = (dst i).2 := by
  fin_cases i
  · have e1 := congrFun hx 0
    have e2 := congrFun hx 1
    simp [Matrix.mulVec, Matrix.dotProduct, Fin.sum_univ_eight, dltMatrix, dltVec, dltRowX,
      dltRowY, consValFive8, consValSix8, consValSeven8, consValFive7, consValSix7,
      consValFive6, Fin.zero_eta, Fin.mk_one, finMkTwo4, finMkThree4] at e1 e2 ⊢
    exact ⟨by linear_combination e1, by linear_combination e2⟩
  · have e1 := congrFun hx 2
    have e2 := congrFun hx 3
    simp [Matrix.mulVec, Matrix.dotProduct, Fin.sum_univ_eight, dltMatrix, dltVec, dltRowX,
      dltRowY, consValFive8, consValSix8, consValSeven8, consValFive7, consValSix7,
      consValFive6, Fin.zero_eta, Fin.mk_one, finMkTwo4, finMkThree4] at e1 e2 ⊢
    exact ⟨by linear_combination e1, by linear_combination e2⟩
  · have e1 := congrFun hx 4
    have e2 := congrFun hx 5
    simp [Matrix.mulVec, Matrix.dotProduct, Fin.sum_univ_eight, dltMatrix, dltVec, dltRowX,
      dltRowY, consValFive8, consValSix8, consValSeven8, consValFive7, consValSix7,
      consValFive6, Fin.zero_eta, Fin.mk_one, finMkTwo4, finMkThree4] at e1 e2 ⊢
    exact ⟨by linear_combination e1, by linear_combination e2⟩
  · have e1 := congrFun hx 6
    have e2 := congrFun hx 7
    simp [Matrix.mulVec, Matrix.dotProduct, Fin.sum_univ_eight, dltMatrix, dltVec, dltRowX,
      dltRowY, consValFive8, consValSix8, consValSeven8, consValFive7, consValSix7,
      consValFive6, Fin.zero_eta, Fin.mk_one, finMkTwo4, finMkThree4] at e1 e2 ⊢
    exact ⟨by linear_combination e1, by linear_combination e2⟩

theorem hmatOf_idVec8 : hmatOf idVec8 = 1 := by
  funext i j
  fin_cases i <;> fin_cases j <;> simp [hmatOf, idVec8, Matrix.one_apply, consValFive8, consValSix8, consValSeven8, consValFive7, consValSix7, consValFive6, Matrix.vecHead, Matrix.vecTail]

theorem gpt_self_eq_one {src : Pts4} {H : Matrix (Fin 3) (Fin 3) ℚ}
    (h : getPerspectiveTransform src src = some H) : H = 1 := by
  obtain ⟨x, hs, rfl⟩ := gpt_elim h
  have hid : idVec8 = x := solveLin8_unique hs (dlt_mulVec_id src)
  rw [← hid, hmatOf_idVec8]

theorem det3_one : det3 1 = 1 := by
  simp +decide [det3, Matrix.one_apply]

theorem inv3_one : inv3 1 = 1 := by
  funext i j
  fin_cases i <;> fin_cases j <;> simp +decide [inv3, det3, Matrix.one_apply]

theorem transformPoint_one (p : ℚ × ℚ) : transformPoint 1 p = p := by
  simp [transformPoint, denom3, Matrix.one_apply]

theorem ptsAdd_zero (points : Pts4) : ptsAdd points zeroDelta = points := by
  funext i
  simp [ptsAdd, zeroDelta]

theorem sampleBilinear_nat (img : QImage) (r c : ℕ) (hr : r < img.h) (hc : c < img.w) :
    sampleBilinear img (c : ℚ) (r : ℚ) = img.pix r c := by
  have h1 : (0 : ℤ) ≤ (r : ℤ) := Int.natCast_nonneg r
  have h2 : (r : ℤ) < (img.h : ℤ) := by exact_mod_cast hr
  have h3 : (0 : ℤ) ≤ (c : ℤ) := Int.natCast_nonneg c
  have h4 : (c : ℤ) < (img.w : ℤ) := by exact_mod_cast hc
  simp [sampleBilinear, Int.floor_natCast, pixAt, h1, h2, h3, h4]

theorem warpPerspective_one (img : QImage) (oh ow : ℕ) :
    warpPerspective img 1 oh ow =
      some { h := oh, w := ow, pix := fun r c => sampleBilinear img (c : ℚ) (r : ℚ) } := by
  unfold warpPerspective
  rw [det3_one]
  norm_num [inv3_one, transformPoint_one]

theorem photometricLoss_elim {delta : Pts4} {imgA imgB : QImage} {points : Pts4} {q : ℚ}
    (h : photometricLoss delta imgA imgB points = some q) :
    ∃ H imgBHat, getPerspectiveTransform points (ptsAdd points delta) = some H ∧
      warpPerspective imgA H 256 256 = some imgBHat ∧
      imgB.h = 256 ∧ imgB.w = 256 ∧ q = imgMeanAbsDiff imgBHat imgB 256 256 := by
  unfold photometricLoss at h
  rcases hg : getPerspectiveTransform points (ptsAdd points delta) with _ | H
  · rw [hg] at h; exact absurd h (by simp)
  · rw [hg] at h
    dsimp only at h
    rcases hw : warpPerspective imgA H 256 256 with _ | imgBHat
    · rw [hw] at h; exact absurd h (by simp)
    · rw [hw] at h
      simp only [] at h
      split at h
      · rename_i hsz
        exact ⟨H, imgBHat, rfl, hw, hsz.1, hsz.2, (Option.some.inj h).symm⟩
      · exact absurd h (by simp)

theorem imgMeanAbsDiff_nonneg (a b : QImage) (oh ow : ℕ) :
    0 ≤ imgMeanAbsDiff a b oh ow := by
  unfold imgMeanAbsDiff
  apply div_nonneg
  · apply Finset.sum_nonneg
    intro r _
    apply Finset.sum_nonneg
    intro c _
    exact abs_nonneg _
  · positivity

/-- C4 (amended): whenever the perspective-transform solve succeeds on the
correspondence `src i ↦ dst i` (the DLT system is uniquely solvable), the
computed homography maps each source point exactly onto its destination
point, provided the homography does not send that source point to the line
at infinity (nonzero homogeneous denominator); and whenever the solve
succeeds with destination equal to source (`delta = 0`), the computed
transform is exactly the identity matrix. -/
theorem perspective_round_trip (src dst : Pts4) (H : Matrix (Fin 3) (Fin 3) ℚ)
    (h : getPerspectiveTransform src dst = some H) :
    (∀ i : Fin 4, denom3 H (src i) ≠ 0 → transformPoint H (src i) = dst i) ∧
    (dst = src → H = 1) := by
  constructor
  · intro i hw
    obtain ⟨x, hs, rfl⟩ := gpt_elim h
    have hx := solveLin8_solves hs
    obtain ⟨e1, e2⟩ := gpt_rows hx i
    have hden : denom3 (hmatOf x) (src i) = x 6 * (src i).1 + x 7 * (src i).2 + 1 := by
      simp [denom3, hmatOf]
    have hw' : x 6 * (src i).1 + x 7 * (src i).2 + 1 ≠ 0 := by
      rw [← hden]; exact hw
    unfold transformPoint
    rw [hden]
    have ha : hmatOf x 0 0 = x 0 := rfl
    have hb : hmatOf x 0 1 = x 1 := rfl
    have hc : hmatOf x 0 2 = x 2 := rfl
    have hd : hmatOf x 1 0 = x 3 := rfl
    have he : hmatOf x 1 1 = x 4 := rfl
    have hf : hmatOf x 1 2 = x 5 := rfl
    rw [ha, hb, hc, hd, he, hf]
    refine Prod.ext ?_ ?_
    · show (x 0 * (src i).1 + x 1 * (src i).2 + x 2) / (x 6 * (src i).1 + x 7 * (src i).2 + 1)
        = (dst i).1
      rw [div_eq_iff hw']
      linear_combination e1
    · show (x 3 * (src i).1 + x 4 * (src i).2 + x 5) / (x 6 * (src i).1 + x 7 * (src i).2 + 1)
        = (dst i).2
      rw [div_eq_iff hw']
      linear_combination e2
  · intro hds
    subst hds
    exact gpt_self_eq_one h

attribute [local semireducible] Rat.add Rat.sub Rat.mul Rat.inv

theorem sampleBilinear_zero (x y : ℚ) : sampleBilinear imgZero x y = 0 := by
  have hp : ∀ a b : ℤ, pixAt imgZero a b = 0 := by
    intro a b
    unfold pixAt imgZero
    split <;> rfl
  unfold sampleBilinear
  simp [hp]

theorem photometricLoss_zero_concrete :
    photometricLoss zeroDelta imgZero imgZero sqPts = some 0 := by
  have hs : (getPerspectiveTransform sqPts (ptsAdd sqPts zeroDelta)).isSome = true := by decide
  obtain ⟨H, hH⟩ := Option.isSome_iff_exists.mp hs
  have h1 : H = 1 := gpt_self_eq_one (by rwa [ptsAdd_zero] at hH)
  subst h1
  unfold photometricLoss
  rw [hH]
  dsimp only
  rw [warpPerspective_one]
  have hz : imgMeanAbsDiff
      { h := 256, w := 256, pix := fun r c => sampleBilinear imgZero (c : ℚ) (r : ℚ) }
      imgZero 256 256 = 0 := by
    unfold imgMeanAbsDiff
    rw [Finset.sum_eq_zero, zero_div]
    intro r _
    rw [Finset.sum_eq_zero]
    intro c _
    dsimp only
    rw [sampleBilinear_zero]
    simp [imgZero]
  dsimp only
  rw [if_pos ⟨rfl, rfl⟩]
  exact congrArg some hz

/-- C3 (amended): whenever `photometric_loss` returns a value (the
perspective solve and the warp succeed — e.g. it fails on four coincident
corner points), that value is a non-negative scalar, and it is exactly zero
when the two images are identical and the displacement is zero. -/
theorem photometric_loss_nonneg_and_zero (delta : Pts4) (imgA imgB : QImage) (points : Pts4)
    (q : ℚ) (h : photometricLoss delta imgA imgB points = some q) :
    0 ≤ q ∧ (imgA = imgB → delta = zeroDelta → q = 0) := by
  obtain ⟨H, imgBHat, hg, hw, hbh, hbw, rfl⟩ := photometricLoss_elim h
  refine ⟨imgMeanAbsDiff_nonneg _ _ _ _, ?_⟩
  intro hab hdz
  subst hdz
  have h1 : H = 1 := gpt_self_eq_one (by rwa [ptsAdd_zero] at hg)
  subst h1
  rw [warpPerspective_one] at hw
  obtain rfl := Option.some.inj hw
  subst hab
  unfold imgMeanAbsDiff
  rw [Finset.sum_eq_zero, zero_div]
  intro r hr
  rw [Finset.sum_eq_zero]
  intro c hc
  dsimp only
  rw [sampleBilinear_nat imgA r c (by rw [hbh]; exact Finset.mem_range.mp hr)
    (by rw [hbw]; exact Finset.mem_range.mp hc)]
  simp

/-- C3 counterexample: on four coincident corner points the DLT system is
singular, so `photometric_loss` raises (returns no scalar at all) instead of
returning a non-negative scalar — the claim's "for every input" fails. -/
theorem photometric_loss_counterexample :
    photometricLoss zeroDelta imgZero imgZero degPts = none := by decide

theorem photometric_loss_nonneg_and_zero_witness :
    0 ≤ (0 : ℚ) ∧ (imgZero = imgZero → zeroDelta = zeroDelta → (0 : ℚ) = 0) :=
  photometric_loss_nonneg_and_zero zeroDelta imgZero imgZero sqPts 0
    photometricLoss_zero_concrete

/-- C2: `photometric_loss` computes exactly the spec's four steps —
destination points = points + delta, perspective transform from the four
correspondences, warp of the *first* image, mean absolute difference against
the second — with the fixed (256, 256) target size, which matches the
second image's resolution whenever that image is 256×256 (the resolution
used throughout the system). -/
theorem photometric_loss_matches_spec (delta : Pts4) (imgA imgB : QImage) (points : Pts4)
    (hbh : imgB.h = 256) (hbw : imgB.w = 256) :
    photometricLoss delta imgA imgB points = photometricLossSpec delta imgA imgB points := by
  unfold photometricLoss photometricLossSpec
  rw [hbh, hbw]
  rcases getPerspectiveTransform points (ptsAdd points delta) with _ | H
  · rfl
  · dsimp only
    rcases warpPerspective imgA H 256 256 with _ | imgBHat
    · rfl
    · simp

theorem photometric_loss_matches_spec_witness :
    photometricLoss zeroDelta imgZero imgZero sqPts
      = photometricLossSpec zeroDelta imgZero imgZero sqPts :=
  photometric_loss_matches_spec zeroDelta imgZero imgZero sqPts rfl rfl

/-- C4 counterexample: the source points `srcX` are non-degenerate (no three
collinear), the displacement `deltaX` makes the DLT system uniquely
solvable, yet the computed transform sends the first source point to the
line at infinity (it evaluates to junk, not to its destination point), so
the round-trip property fails as stated. -/
theorem perspective_round_trip_counterexample :
    noThreeCollinear srcX ∧
    getPerspectiveTransform srcX (ptsAdd srcX deltaX) = some hX ∧
    transformPoint hX (srcX 0) ≠ ptsAdd srcX deltaX 0 := by
  refine ⟨by decide, by decide, by decide⟩

theorem perspective_round_trip_witness :
    (∀ i : Fin 4, denom3 shiftH (sqPts i) ≠ 0 →
        transformPoint shiftH (sqPts i) = ptsAdd sqPts shiftDelta i) ∧
    (ptsAdd sqPts shiftDelta = sqPts → shiftH = 1) :=
  perspective_round_trip sqPts (ptsAdd sqPts shiftDelta) shiftH (by decide)

/-- C1: `train_step` never calls `optimizer.zero_grad()`, so the gradient
buffer is *not* zero immediately before the backward pass of the second
batch: with a constant per-batch gradient of 1 (and an optimizer step that
does not touch the buffer, as Adam does not), the buffer still holds the
first batch's gradient — the spec's required invariant fails in the code. -/
theorem train_step_grad_leak :
    gradsBeforeBackward (fun (_ : ℚ) (_ : ℕ) => (1 : ℚ)) (· + ·) 0 (fun p _ => p)
      { params := 0, grads := 0, events := [] } 1 = 1 ∧ (1 : ℚ) ≠ 0 := by
  refine ⟨by decide, by decide⟩

/-- C9: running any number of `valid_step` batches leaves every model
parameter unchanged — the per-batch body contains only the forward/loss
computation, no backward accumulation and no optimizer step, for every
gradient function, accumulation rule, optimizer update and start state. -/
theorem valid_step_preserves_params {P G : Type} (g : P → ℕ → G) (gadd : G → G → G)
    (gzero : G) (upd : P → G → P) (n : ℕ) (s : LoopState P G) :
    (runBatches validBody g gadd gzero upd n s).params = s.params := by
  induction n with
  | zero => rfl
  | succ k ih => exact ih

/-- C6 counterexample: after two training batches the two `train_loss`
emissions both carry no step key (the code passes no `global_step`), so the
sequence of step keys is not strictly increasing. -/
theorem train_metric_steps_counterexample :
    emittedSteps 2 = [none, none] ∧
    ¬ List.Chain' (fun a b => stepKeyLt a b = true) (emittedSteps 2) := by
  have h2 : emittedSteps 2 = [none, none] := by decide
  refine ⟨h2, ?_⟩
  rw [h2, List.chain'_pair]
  simp [stepKeyLt]

/-- C6 (amended): every per-batch training-loss emission is keyed by no step
counter at all — the code calls `add_scalar` without a `global_step`, so the
writer records its default (the same constant) for every batch, and the
emitted keys are constant rather than strictly increasing. -/
theorem train_metric_steps_all_default {P G : Type} (g : P → ℕ → G) (gadd : G → G → G)
    (gzero : G) (upd : P → G → P) (n : ℕ) (s0 : LoopState P G) :
    (runBatches trainBody g gadd gzero upd n s0).events
      = s0.events ++ List.replicate n { tag := trainLossTag, step := none } := by
  induction n with
  | zero => simp [runBatches]
  | succ k ih =>
    show (runOps g gadd gzero upd k (runBatches trainBody g gadd gzero upd k s0) trainBody).events
      = _
    have hev : ∀ t : LoopState P G, (runOps g gadd gzero upd k t trainBody).events
        = t.events ++ [{ tag := trainLossTag, step := none }] := fun t => rfl
    rw [hev, ih, List.replicate_succ', ← List.append_assoc]

theorem batchChunks_join (B : ℕ) (hB : 0 < B) (l : List ℚ) :
    (batchChunks B l).flatten = l := by
  rw [batchChunks]
  split
  · rename_i h
    rcases h with h | h
    · subst h; rfl
    · omega
  · rename_i h
    have hne : l ≠ [] := fun he => h (Or.inl he)
    rw [List.flatten_cons, batchChunks_join B hB (l.drop B)]
    exact List.take_append_drop B l
termination_by l.length
decreasing_by
  simp only [List.length_drop]
  have hpos : 0 < l.length := List.length_pos.mpr hne
  omega

theorem batchChunks_ne_nil (B : ℕ) (hB : 0 < B) (l : List ℚ) :
    ∀ b ∈ batchChunks B l, b ≠ [] := by
  intro b hb
  rw [batchChunks] at hb
  split at hb
  · exact absurd hb (List.not_mem_nil b)
  · rename_i h
    have hne : l ≠ [] := fun he => h (Or.inl he)
    rcases List.mem_cons.mp hb with hb | hb
    · subst hb
      simp only [ne_eq, List.take_eq_nil_iff]
      push_neg
      exact ⟨by omega, hne⟩
    · exact batchChunks_ne_nil B hB (l.drop B) b hb
termination_by l.length
decreasing_by
  simp only [List.length_drop]
  have hpos : 0 < l.length := List.length_pos.mpr hne
  omega

theorem foldl_add_map (f : List ℚ → ℚ) (chunks : List (List ℚ)) (a : ℚ) :
    chunks.foldl (fun acc b => acc + f b) a = a + (chunks.map f).sum := by
  induction chunks generalizing a with
  | nil => simp
  | cons c cs ih => simp [ih, add_assoc]

/-- C8: the running loss accumulator starts at zero, each batch adds the
batch-mean loss times the actual batch size, and the returned value is the
accumulated total over the dataset length — i.e. exactly the per-sample
mean of the epoch's losses, also when the final batch is smaller than the
configured batch size. -/
theorem step_mean_weighted (B : ℕ) (samples : List ℚ) (hB : 0 < B) (hs : samples ≠ []) :
    stepMean B samples = some (samples.sum / samples.length) := by
  unfold stepMean
  rw [if_neg (fun hz => hs (List.length_eq_zero.mp hz))]
  have htot : (batchChunks B samples).foldl (fun acc b => acc + batchLoss b * b.length) 0
      = samples.sum := by
    rw [foldl_add_map (fun b => batchLoss b * (b.length : ℚ)) (batchChunks B samples) 0,
      zero_add]
    have hmap : (batchChunks B samples).map (fun b => batchLoss b * (b.length : ℚ))
        = (batchChunks B samples).map List.sum := by
      apply List.map_congr_left
      intro b hb
      have hbne := batchChunks_ne_nil B hB samples b hb
      have h0 : (b.length : ℚ) ≠ 0 :=
        Nat.cast_ne_zero.mpr (fun hz => hbne (List.length_eq_zero.mp hz))
      unfold batchLoss
      field_simp
    rw [hmap, ← List.sum_flatten, batchChunks_join B hB]
  rw [htot]

theorem step_mean_weighted_witness : stepMean 2 [1, 2, 3] = some 2 := by
  rw [step_mean_weighted 2 [1, 2, 3] (by norm_num) (by simp)]
  norm_num

/-- C10 counterexample: a dataset of 4 samples (fewer than 5) does *not*
yield an empty validation partition — `int(0.8 * 4) = 3`, so the validation
partition has one element. -/
theorem split_counterexample : 4 < 5 ∧ validSplitSize 4 = 1 := by decide

/-- C10 (amended): an empty partition makes the final mean computation
divide by zero, so the step fails instead of returning a value — a nonempty
partition is a precondition; with the 0.8 split, the validation partition is
empty only for an empty dataset, and the training partition is empty exactly
for datasets of size at most 1. -/
theorem step_empty_partition_safety :
    (∀ B : ℕ, stepMean B [] = none) ∧
    (∀ n : ℕ, validSplitSize n = 0 ↔ n = 0) ∧
    (∀ n : ℕ, trainSplitSize n = 0 ↔ n ≤ 1) := by
  refine ⟨fun B => rfl, fun n => ?_, fun n => ?_⟩
  · unfold validSplitSize trainSplitSize
    omega
  · unfold trainSplitSize
    omega

theorem countP_epochBlock_save (tl vl : ℕ → ℚ) (e e' : ℕ) :
    (epochBlock tl vl e').countP (isSaveOf e) = if e' = e then 1 else 0 := by
  by_cases h : e' = e <;>
    simp [epochBlock, List.countP_cons, isSaveOf, h]

theorem countP_epochBlock_print (tl vl : ℕ → ℚ) (e e' : ℕ) :
    (epochBlock tl vl e').countP (isPrintOf e) = if e' = e then 1 else 0 := by
  by_cases h : e' = e <;>
    simp [epochBlock, List.countP_cons, isSaveOf, isPrintOf, h]

theorem countP_fitTrace_save (tl vl : ℕ → ℚ) (n e : ℕ) :
    (fitTrace tl vl n).countP (isSaveOf e) = if e < n then 1 else 0 := by
  induction n with
  | zero => simp [fitTrace]
  | succ k ih =>
    rw [fitTrace, List.countP_append, ih, countP_epochBlock_save]
    split_ifs <;> omega

theorem countP_fitTrace_print (tl vl : ℕ → ℚ) (n e : ℕ) :
    (fitTrace tl vl n).countP (isPrintOf e) = if e < n then 1 else 0 := by
  induction n with
  | zero => simp [fitTrace]
  | succ k ih =>
    rw [fitTrace, List.countP_append, ih, countP_epochBlock_print]
    split_ifs <;> omega

theorem fitTrace_decompose (tl vl : ℕ → ℚ) (n e : ℕ) (h : e < n) :
    ∃ l1 l2, fitTrace tl vl n = l1 ++ epochBlock tl vl e ++ l2 := by
  induction n with
  | zero => omega
  | succ k ih =>
    rcases Nat.lt_succ_iff_lt_or_eq.mp h with h1 | rfl
    · obtain ⟨l1, l2, hd⟩ := ih h1
      exact ⟨l1, l2 ++ epochBlock tl vl k, by rw [fitTrace, hd]; simp⟩
    · exact ⟨fitTrace tl vl e, [], by rw [fitTrace]; simp⟩

/-- C7: for every epoch `e` in the configured range, the `fit` trace
contains — in source order — a train pass over the training partition, then
a valid pass over the validation partition, then exactly one printed line
(tab-separated epoch index and the two mean losses at 4 decimal places),
then exactly one checkpoint save whose filename encodes the epoch index. -/
theorem fit_epoch_driver (tl vl : ℕ → ℚ) (n e : ℕ) (h : e < n) :
    (∃ l1 l2, fitTrace tl vl n
        = l1 ++ [FitEvent.trainPass e, FitEvent.validPass e,
            FitEvent.printLine e (toString e ++ "\t" ++ fmt4 (tl e) ++ "\t" ++ fmt4 (vl e)),
            FitEvent.saveCkpt e ("model_" ++ toString e ++ ".pt")] ++ l2) ∧
    (fitTrace tl vl n).countP (isSaveOf e) = 1 ∧
    (fitTrace tl vl n).countP (isPrintOf e) = 1 := by
  refine ⟨?_, ?_, ?_⟩
  · obtain ⟨l1, l2, hd⟩ := fitTrace_decompose tl vl n e h
    exact ⟨l1, l2, by rw [hd]; rfl⟩
  · rw [countP_fitTrace_save, if_pos h]
  · rw [countP_fitTrace_print, if_pos h]

theorem fit_epoch_driver_witness :
    (∃ l1 l2, fitTrace (fun _ => (0 : ℚ)) (fun _ => (0 : ℚ)) 1
        = l1 ++ [FitEvent.trainPass 0, FitEvent.validPass 0,
            FitEvent.printLine 0 (toString 0 ++ "\t" ++ fmt4 ((fun _ => (0 : ℚ)) 0)
              ++ "\t" ++ fmt4 ((fun _ => (0 : ℚ)) 0)),
            FitEvent.saveCkpt 0 ("model_" ++ toString 0 ++ ".pt")] ++ l2) ∧
    (fitTrace (fun _ => (0 : ℚ)) (fun _ => (0 : ℚ)) 1).countP (isSaveOf 0) = 1 ∧
    (fitTrace (fun _ => (0 : ℚ)) (fun _ => (0 : ℚ)) 1).countP (isPrintOf 0) = 1 :=
  fit_epoch_driver (fun _ => 0) (fun _ => 0) 1 0 (by decide)

/-- C5 counterexample: on 1×64×64 patch pairs (equal spatial dimensions) the
forward pass *fails* — after five halvings the flattened feature count is
256·2·2 = 1024, which does not match the `Linear(256*4*4, 4096)` head — so
the network does not return a `(n, 4, 2)` tensor for every equal-size patch
pair. -/
theorem net_shape_counterexample :
    netForwardShape 1 1 64 64 1 64 64 = none ∧
    netForwardShape 1 1 64 64 1 64 64 ≠ some (1, 4, 2) := by
  refine ⟨by decide, by decide⟩

/-- C5 (amended): for patch pairs of shape 1×128×128 each (the fixed patch
resolution the head is sized for) and any batch size `n`, the forward pass
returns a tensor of shape `(n, 4, 2)`. -/
theorem net_shape_amended (n : ℕ) :
    netForwardShape n 1 128 128 1 128 128 = some (n, 4, 2) := by
  unfold netForwardShape
  rw [if_pos ⟨rfl, rfl⟩]
  norm_num [cnnShape, blockShape, convShape, poolShape, flattenShape, fcShape, linearShape,
    viewShape]
